import Mathlib

/-!
Shallow embedding of `src/06-objects-tasks.js` (repository `core-js-101`).

The file embeds, in order:
* the `Rectangle` constructor function;
* the JSON helpers `getJSON` / `fromJSON` together with a model of the
  host JSON serializer and parser they delegate to;
* the CSS selector builder `MySelectorsClass` and its facade
  `cssSelectorBuilder`.

JavaScript methods mutate `this` and may throw.  A method of the builder is
embedded as a function from the receiver state to a pair
`state × Option SelErr`: the returned state is the object state when the
method finishes (normally or by throwing) and the second component records
the thrown error, if any.  In the source every `throw` occurs before any
assignment, so the error branches return the receiver unchanged.
-/

/-- The two error messages thrown by `MySelectorsClass`:
`duplicate` stands for "Element, id and pseudo-element should not occur more
then one time inside the selector", `badOrder` for "Selector parts should be
arranged in the following order: element, id, class, attribute, pseudo-class,
pseudo-element". -/
inductive SelErr where
  | duplicate : SelErr
  | badOrder : SelErr
deriving DecidableEq, Repr

/-- The instance fields of `MySelectorsClass` (lines 115–122 of the source):
`selector`, `isElementCalled`, `isIdCalled`, `isPseudoElementCalled`,
`order`. -/
structure MySelectorsClass where
  selector : String
  isElementCalled : Bool
  isIdCalled : Bool
  isPseudoElementCalled : Bool
  order : Nat
deriving DecidableEq, Repr

/-- The constructor `new MySelectorsClass()`: empty selector, all flags
false, order 0. -/
def MySelectorsClass.init : MySelectorsClass :=
  ⟨"", false, false, false, 0⟩

/-- `element(val)` (source lines 124–131): throws `duplicate` if
`isElementCalled`, throws `badOrder` if `order > 1`, otherwise appends `val`
verbatim, sets `isElementCalled` and `order = 1`. -/
def MySelectorsClass.element (s : MySelectorsClass) (val : String) :
    MySelectorsClass × Option SelErr :=
  if s.isElementCalled then (s, some SelErr.duplicate)
  else if s.order > 1 then (s, some SelErr.badOrder)
  else ({ s with selector := s.selector ++ val, isElementCalled := true, order := 1 }, none)

/-- `id(val)` (source lines 133–140): throws `duplicate` if `isIdCalled`,
throws `badOrder` if `order > 2`, otherwise appends `#val`, sets
`isIdCalled` and `order = 2`. -/
def MySelectorsClass.id (s : MySelectorsClass) (val : String) :
    MySelectorsClass × Option SelErr :=
  if s.isIdCalled then (s, some SelErr.duplicate)
  else if s.order > 2 then (s, some SelErr.badOrder)
  else ({ s with selector := s.selector ++ "#" ++ val, isIdCalled := true, order := 2 }, none)

/-- `class(val)` (source lines 142–147; `class` is a Lean keyword, hence
`cls`): throws `badOrder` if `order > 3`, otherwise appends `.val` and sets
`order = 3`. -/
def MySelectorsClass.cls (s : MySelectorsClass) (val : String) :
    MySelectorsClass × Option SelErr :=
  if s.order > 3 then (s, some SelErr.badOrder)
  else ({ s with selector := s.selector ++ "." ++ val, order := 3 }, none)

/-- `attr(val)` (source lines 149–154): throws `badOrder` if `order > 4`,
otherwise appends `[val]` and sets `order = 4`. -/
def MySelectorsClass.attr (s : MySelectorsClass) (val : String) :
    MySelectorsClass × Option SelErr :=
  if s.order > 4 then (s, some SelErr.badOrder)
  else ({ s with selector := s.selector ++ "[" ++ val ++ "]", order := 4 }, none)

/-- `pseudoClass(val)` (source lines 156–161): throws `badOrder` if
`order > 5`, otherwise appends `:val` and sets `order = 5`. -/
def MySelectorsClass.pseudoClass (s : MySelectorsClass) (val : String) :
    MySelectorsClass × Option SelErr :=
  if s.order > 5 then (s, some SelErr.badOrder)
  else ({ s with selector := s.selector ++ ":" ++ val, order := 5 }, none)

/-- `pseudoElement(val)` (source lines 163–169): throws `duplicate` if
`isPseudoElementCalled`; there is no order check; otherwise appends `::val`,
sets the flag and `order = 6`. -/
def MySelectorsClass.pseudoElement (s : MySelectorsClass) (val : String) :
    MySelectorsClass × Option SelErr :=
  if s.isPseudoElementCalled then (s, some SelErr.duplicate)
  else ({ s with selector := s.selector ++ "::" ++ val, isPseudoElementCalled := true, order := 6 }, none)

/-- `stringify()` (source lines 176–178): returns `this.selector`. -/
def MySelectorsClass.stringify (s : MySelectorsClass) : String :=
  s.selector

/-- `combine(val1, com, val2)` (source lines 171–174): overwrites
`this.selector` with `val1.stringify() + " " + com + " " + val2.stringify()`
and returns `this`; no other field is touched and nothing is thrown. -/
def MySelectorsClass.combine (s : MySelectorsClass) (val1 : MySelectorsClass)
    (com : String) (val2 : MySelectorsClass) : MySelectorsClass :=
  { s with selector := val1.stringify ++ " " ++ com ++ " " ++ val2.stringify }

/-- `stringify()` in state-passing form: the body `return this.selector;`
contains no assignment, so the receiver after the call is the receiver
before it. -/
def MySelectorsClass.stringifySt (s : MySelectorsClass) :
    String × MySelectorsClass :=
  (s.selector, s)

/-- `combine` in state-passing form, also returning the two operand objects
as they stand after the call: the body only calls `stringify()` on them. -/
def MySelectorsClass.combineSt (s val1 : MySelectorsClass) (com : String)
    (val2 : MySelectorsClass) :
    MySelectorsClass × MySelectorsClass × MySelectorsClass :=
  ({ s with selector := val1.stringifySt.1 ++ " " ++ com ++ " " ++ val2.stringifySt.1 }, val1.stringifySt.2, val2.stringifySt.2)

namespace cssSelectorBuilder

/-- Facade `cssSelectorBuilder.element` (source lines 182–184). -/
def element (value : String) : MySelectorsClass × Option SelErr :=
  MySelectorsClass.init.element value

/-- Facade `cssSelectorBuilder.id` (source lines 186–188). -/
def id (value : String) : MySelectorsClass × Option SelErr :=
  MySelectorsClass.init.id value

/-- Facade `cssSelectorBuilder.class` (source lines 190–192). -/
def cls (value : String) : MySelectorsClass × Option SelErr :=
  MySelectorsClass.init.cls value

/-- Facade `cssSelectorBuilder.attr` (source lines 194–196). -/
def attr (value : String) : MySelectorsClass × Option SelErr :=
  MySelectorsClass.init.attr value

/-- Facade `cssSelectorBuilder.pseudoClass` (source lines 198–200). -/
def pseudoClass (value : String) : MySelectorsClass × Option SelErr :=
  MySelectorsClass.init.pseudoClass value

/-- Facade `cssSelectorBuilder.pseudoElement` (source lines 202–204). -/
def pseudoElement (value : String) : MySelectorsClass × Option SelErr :=
  MySelectorsClass.init.pseudoElement value

/-- Facade `cssSelectorBuilder.combine` (source lines 206–208). -/
def combine (selector1 : MySelectorsClass) (combinator : String)
    (selector2 : MySelectorsClass) : MySelectorsClass :=
  MySelectorsClass.init.combine selector1 combinator selector2

end cssSelectorBuilder

/-- One category-append call of the builder, with its string argument. -/
inductive Frag where
  | element : String → Frag
  | id : String → Frag
  | cls : String → Frag
  | attr : String → Frag
  | pseudoClass : String → Frag
  | pseudoElement : String → Frag
deriving DecidableEq, Repr

/-- The category ordinal of a call: element=1, id=2, class=3, attribute=4,
pseudo-class=5, pseudo-element=6. -/
def fragOrd : Frag → Nat
  | Frag.element _ => 1
  | Frag.id _ => 2
  | Frag.cls _ => 3
  | Frag.attr _ => 4
  | Frag.pseudoClass _ => 5
  | Frag.pseudoElement _ => 6

/-- Dispatch one category-append call on a builder state. -/
def applyFrag (s : MySelectorsClass) : Frag → MySelectorsClass × Option SelErr
  | Frag.element v => s.element v
  | Frag.id v => s.id v
  | Frag.cls v => s.cls v
  | Frag.attr v => s.attr v
  | Frag.pseudoClass v => s.pseudoClass v
  | Frag.pseudoElement v => s.pseudoElement v

/-- A chain of category-append calls; a thrown error aborts the chain,
leaving the state at the throw point. -/
def applyTrace (s : MySelectorsClass) : List Frag → MySelectorsClass × Option SelErr
  | [] => (s, none)
  | f :: fs =>
    match applyFrag s f with
    | (s1, none) => applyTrace s1 fs
    | (s1, some e) => (s1, some e)

/-- A state is reachable when some chain of category calls starting from a
fresh builder (as every `cssSelectorBuilder` facade entry creates one)
produces it without throwing. -/
def SelReachable (s : MySelectorsClass) : Prop :=
  ∃ fs : List Frag, applyTrace MySelectorsClass.init fs = (s, none)

/-- Does a call belong to the `element` category? -/
def isElemF : Frag → Bool
  | Frag.element _ => true
  | _ => false

/-- Does a call belong to the `id` category? -/
def isIdF : Frag → Bool
  | Frag.id _ => true
  | _ => false

/-- Does a call belong to the `pseudoElement` category? -/
def isPEF : Frag → Bool
  | Frag.pseudoElement _ => true
  | _ => false

/-- The text a call appends, prefix included. -/
def fragStr : Frag → String
  | Frag.element v => v
  | Frag.id v => "#" ++ v
  | Frag.cls v => "." ++ v
  | Frag.attr v => "[" ++ v ++ "]"
  | Frag.pseudoClass v => ":" ++ v
  | Frag.pseudoElement v => "::" ++ v

/-- The six groups of a valid chain, in the spec order:
`element? id? class* attr* pseudoClass* pseudoElement?`. -/
structure ValidParts where
  elemVal : Option String
  idVal : Option String
  clsVals : List String
  attrVals : List String
  pcVals : List String
  peVal : Option String

/-- The (zero or one) calls an optional group contributes. -/
def optTrace (f : String → Frag) : Option String → List Frag
  | none => []
  | some v => [f v]

/-- The chain of calls of a valid ordering. -/
def ValidParts.trace (p : ValidParts) : List Frag :=
  optTrace Frag.element p.elemVal ++ optTrace Frag.id p.idVal ++
    p.clsVals.map Frag.cls ++ p.attrVals.map Frag.attr ++
    p.pcVals.map Frag.pseudoClass ++ optTrace Frag.pseudoElement p.peVal

/-- Literal concatenation of a list of strings. -/
def catStr : List String → String
  | [] => ""
  | x :: xs => x ++ catStr xs

/-- Prefixed text of an optional group, empty when absent. -/
def optStr (pre : String) : Option String → String
  | none => ""
  | some v => pre ++ v

/-- The fragment concatenation the spec prescribes: element value verbatim,
then `#id`, `.class`es, `[attr]`s, `:pseudoClass`es, `::pseudoElement`. -/
def ValidParts.expected (p : ValidParts) : String :=
  optStr "" p.elemVal ++ optStr "#" p.idVal ++
    catStr (p.clsVals.map (fun v => "." ++ v)) ++
    catStr (p.attrVals.map (fun v => "[" ++ v ++ "]")) ++
    catStr (p.pcVals.map (fun v => ":" ++ v)) ++ optStr "::" p.peVal

/-- `Rectangle(width, height)` (source lines 23–27).  JavaScript numbers are
modeled as integers, which is exact for the arithmetic the claims use. -/
structure Rectangle where
  width : Int
  height : Int

/-- `getArea()` of a `Rectangle`: `this.width * this.height`. -/
def Rectangle.getArea (r : Rectangle) : Int := r.width * r.height

/-- `new Rectangle(w, h)`. -/
def Rectangle.new (w h : Int) : Rectangle := ⟨w, h⟩

/-- Model of a JSON value: the plain structural data `JSON.parse` returns
and `JSON.stringify` accepts (numbers as integers; no floats, booleans or
null, which no claim exercises). -/
inductive JVal where
  | jnum : Int → JVal
  | jstr : String → JVal
  | jarr : List JVal → JVal
  | jobj : List (String × JVal) → JVal
deriving Repr

/-- Decimal digit character. -/
def digitChar : Nat → Char
  | 0 => '0'
  | 1 => '1'
  | 2 => '2'
  | 3 => '3'
  | 4 => '4'
  | 5 => '5'
  | 6 => '6'
  | 7 => '7'
  | 8 => '8'
  | _ => '9'

/-- Decimal digits, most significant first; structural recursion on a fuel
bound so that terms reduce definitionally. -/
def natDigsAux : Nat → Nat → List Char
  | 0, _ => []
  | fuel + 1, n =>
    if n < 10 then [digitChar n]
    else natDigsAux fuel (n / 10) ++ [digitChar (n % 10)]

/-- Decimal digits of a natural number, most significant first. -/
def natDigs (n : Nat) : List Char := natDigsAux (n + 1) n

/-- Decimal text of an integer, as the host serializer prints it. -/
def intToStr (n : Int) : String :=
  if n < 0 then "-" ++ String.mk (natDigs n.natAbs) else String.mk (natDigs n.toNat)

mutual

/-- Model of the host serializer `JSON.stringify` on plain data: no
whitespace, object keys in their own insertion order, strings emitted
verbatim between quotes (the host additionally escapes quote and backslash,
which `plainStrB` rules out). -/
def serVal : JVal → String
  | JVal.jnum n => intToStr n
  | JVal.jstr s => "\"" ++ s ++ "\""
  | JVal.jarr l => "[" ++ serArr l ++ "]"
  | JVal.jobj l => "\x7b" ++ serObj l ++ "\x7d"

/-- Comma-separated array elements. -/
def serArr : List JVal → String
  | [] => ""
  | [v] => serVal v
  | v :: vs => serVal v ++ "," ++ serArr vs

/-- Comma-separated `"key":value` members. -/
def serObj : List (String × JVal) → String
  | [] => ""
  | [(k, v)] => "\"" ++ k ++ "\":" ++ serVal v
  | (k, v) :: ms => "\"" ++ k ++ "\":" ++ serVal v ++ "," ++ serObj ms

end

/-- `getJSON(obj)` (source lines 40–42): `JSON.stringify(obj)`. -/
def getJSON (obj : JVal) : String := serVal obj

/-- Numeric value of a digit character. -/
def digitVal (c : Char) : Nat := c.toNat - 48

/-- Greedy decimal scan with accumulator. -/
def parseNatAcc (acc : Nat) : List Char → Nat × List Char
  | [] => (acc, [])
  | c :: cs =>
    if c.isDigit then parseNatAcc (10 * acc + digitVal c) cs else (acc, c :: cs)

/-- Parse an optionally signed decimal integer (at least one digit). -/
def parseInt : List Char → Option (Int × List Char)
  | [] => none
  | c :: cs =>
    if c = '-' then
      match cs with
      | [] => none
      | d :: ds =>
        if d.isDigit then
          some (-((parseNatAcc (digitVal d) ds).1 : Int), (parseNatAcc (digitVal d) ds).2)
        else none
    else if c.isDigit then
      some (((parseNatAcc (digitVal c) cs).1 : Int), (parseNatAcc (digitVal c) cs).2)
    else none

/-- Scan a string body up to the closing quote (no escape handling: the
model covers quote-free, backslash-free strings). -/
def strChars : List Char → Option (List Char × List Char)
  | [] => none
  | c :: cs =>
    if c = '"' then some ([], cs)
    else
      match strChars cs with
      | some (l, r) => some (c :: l, r)
      | none => none

mutual

/-- Model of the host parser `JSON.parse` on the output format of `serVal`:
recursive descent with a fuel bound. -/
def parseVal : Nat → List Char → Option (JVal × List Char)
  | 0, _ => none
  | _ + 1, [] => none
  | fuel + 1, c :: cs =>
    if c = '"' then
      match strChars cs with
      | some (l, r) => some (JVal.jstr (String.mk l), r)
      | none => none
    else if c = '[' then
      match cs with
      | c2 :: r2 =>
        if c2 = ']' then some (JVal.jarr [], r2)
        else
          match parseElems fuel cs with
          | some (vs, r) => some (JVal.jarr vs, r)
          | none => none
      | [] => none
    else if c = '\x7b' then
      match cs with
      | c2 :: r2 =>
        if c2 = '\x7d' then some (JVal.jobj [], r2)
        else
          match parseMems fuel cs with
          | some (ms, r) => some (JVal.jobj ms, r)
          | none => none
      | [] => none
    else
      match parseInt (c :: cs) with
      | some (n, r) => some (JVal.jnum n, r)
      | none => none

/-- One or more comma-separated elements, consuming the closing `]`. -/
def parseElems : Nat → List Char → Option (List JVal × List Char)
  | 0, _ => none
  | fuel + 1, cs =>
    match parseVal fuel cs with
    | some (v, c :: r) =>
      if c = ',' then
        match parseElems fuel r with
        | some (vs, r2) => some (v :: vs, r2)
        | none => none
      else if c = ']' then some ([v], r)
      else none
    | _ => none

/-- One or more comma-separated members, consuming the closing brace. -/
def parseMems : Nat → List Char → Option (List (String × JVal) × List Char)
  | 0, _ => none
  | _ + 1, [] => none
  | fuel + 1, c :: cs =>
    if c = '"' then
      match strChars cs with
      | some (k, c2 :: r) =>
        if c2 = ':' then
          match parseVal fuel r with
          | some (v, c3 :: r2) =>
            if c3 = ',' then
              match parseMems fuel r2 with
              | some (ms, r3) => some ((String.mk k, v) :: ms, r3)
              | none => none
            else if c3 = '\x7d' then some ([(String.mk k, v)], r2)
            else none
          | _ => none
        else none
      | _ => none
    else none

end

/-- Model of the host `JSON.parse` as a whole: the input must be exactly one
JSON value.  The fuel exceeds what any input of this length can use. -/
def jsonParse (s : String) : Option JVal :=
  match parseVal (s.data.length + 1) s.data with
  | some (v, []) => some v
  | _ => none

/-- `fromJSON(proto, json)` (source lines 56–58):
`Object.setPrototypeOf(JSON.parse(json), proto)`.  Setting the prototype
attaches the behavior set `proto` to the parsed value and touches none of
its own fields; the result is modeled as the prototype paired with the
parsed plain value.  A parse failure propagates. -/
def fromJSON {P : Type} (proto : P) (json : String) : Option (P × JVal) :=
  (jsonParse json).map (fun v => (proto, v))

/-- Quote-free, backslash-free string: on these the model serializer agrees
with the host, which would escape both characters. -/
def plainStrB (s : String) : Bool :=
  s.data.all (fun c => !(c = '"') && !(c = '\\'))

mutual

/-- All strings inside the value are `plainStrB`. -/
def plainV : JVal → Bool
  | JVal.jnum _ => true
  | JVal.jstr s => plainStrB s
  | JVal.jarr l => plainE l
  | JVal.jobj l => plainM l

/-- `plainV` on every element. -/
def plainE : List JVal → Bool
  | [] => true
  | v :: vs => plainV v && plainE vs

/-- `plainStrB` keys and `plainV` values. -/
def plainM : List (String × JVal) → Bool
  | [] => true
  | (k, v) :: ms => plainStrB k && plainV v && plainM ms

end

mutual

/-- Fuel needed by `parseVal` on the serialization of a value. -/
def needV : JVal → Nat
  | JVal.jnum _ => 1
  | JVal.jstr _ => 1
  | JVal.jarr l => 1 + needE l
  | JVal.jobj l => 1 + needM l

/-- Fuel needed by `parseElems` on serialized elements. -/
def needE : List JVal → Nat
  | [] => 0
  | v :: vs => 1 + max (needV v) (needE vs)

/-- Fuel needed by `parseMems` on serialized members. -/
def needM : List (String × JVal) → Nat
  | [] => 0
  | (_, v) :: ms => 1 + max (needV v) (needM ms)

end

theorem applyFrag_err_state (s : MySelectorsClass) (f : Frag) :
    (applyFrag s f).2.isSome = true → (applyFrag s f).1 = s := by
  cases f <;>
    simp only [applyFrag, MySelectorsClass.element, MySelectorsClass.id,
      MySelectorsClass.cls, MySelectorsClass.attr, MySelectorsClass.pseudoClass,
      MySelectorsClass.pseudoElement] <;>
    split_ifs <;> simp

theorem element_ok_iff (s : MySelectorsClass) (v : String) :
    (s.element v).2 = none ↔ (s.isElementCalled = false ∧ s.order ≤ 1) := by
  simp only [MySelectorsClass.element]
  split_ifs <;> simp_all <;> omega

theorem id_ok_iff (s : MySelectorsClass) (v : String) :
    (s.id v).2 = none ↔ (s.isIdCalled = false ∧ s.order ≤ 2) := by
  simp only [MySelectorsClass.id]
  split_ifs <;> simp_all <;> omega

theorem cls_ok_iff (s : MySelectorsClass) (v : String) :
    (s.cls v).2 = none ↔ s.order ≤ 3 := by
  simp only [MySelectorsClass.cls]
  split_ifs <;> simp_all <;> omega

theorem attr_ok_iff (s : MySelectorsClass) (v : String) :
    (s.attr v).2 = none ↔ s.order ≤ 4 := by
  simp only [MySelectorsClass.attr]
  split_ifs <;> simp_all <;> omega

theorem pseudoClass_ok_iff (s : MySelectorsClass) (v : String) :
    (s.pseudoClass v).2 = none ↔ s.order ≤ 5 := by
  simp only [MySelectorsClass.pseudoClass]
  split_ifs <;> simp_all <;> omega

theorem pseudoElement_ok_iff (s : MySelectorsClass) (v : String) :
    (s.pseudoElement v).2 = none ↔ s.isPseudoElementCalled = false := by
  simp only [MySelectorsClass.pseudoElement]
  split_ifs <;> simp_all

theorem applyFrag_ok_fields (s t : MySelectorsClass) (f : Frag)
    (h : applyFrag s f = (t, none)) :
    t.selector = s.selector ++ fragStr f ∧ t.order = fragOrd f ∧
    t.isElementCalled = (s.isElementCalled || isElemF f) ∧
    t.isIdCalled = (s.isIdCalled || isIdF f) ∧
    t.isPseudoElementCalled = (s.isPseudoElementCalled || isPEF f) := by
  cases f <;>
    simp only [applyFrag, MySelectorsClass.element, MySelectorsClass.id,
      MySelectorsClass.cls, MySelectorsClass.attr, MySelectorsClass.pseudoClass,
      MySelectorsClass.pseudoElement] at h <;>
    split_ifs at h <;> simp at h <;> subst h <;>
    simp [fragStr, fragOrd, isElemF, isIdF, isPEF, String.append_assoc]

theorem applyFrag_badOrder (s t : MySelectorsClass) (f : Frag)
    (h : applyFrag s f = (t, some SelErr.badOrder)) : fragOrd f < s.order := by
  cases f <;>
    simp only [applyFrag, MySelectorsClass.element, MySelectorsClass.id,
      MySelectorsClass.cls, MySelectorsClass.attr, MySelectorsClass.pseudoClass,
      MySelectorsClass.pseudoElement] at h <;>
    split_ifs at h <;> simp_all [fragOrd] <;> omega

theorem applyFrag_low_err (s : MySelectorsClass) (f : Frag)
    (h6 : s.order ≤ 6) (hlt : fragOrd f < s.order) :
    (applyFrag s f).2.isSome = true := by
  cases f <;>
    simp only [applyFrag, MySelectorsClass.element, MySelectorsClass.id,
      MySelectorsClass.cls, MySelectorsClass.attr, MySelectorsClass.pseudoClass,
      MySelectorsClass.pseudoElement, fragOrd] at hlt ⊢ <;>
    split_ifs <;> simp_all <;> omega

theorem applyFrag_ok_ord_le (s t : MySelectorsClass) (f : Frag)
    (h6 : s.order ≤ 6) (h : applyFrag s f = (t, none)) :
    s.order ≤ fragOrd f ∧ t.order ≤ 6 := by
  have hord := (applyFrag_ok_fields s t f h).2.1
  cases f <;>
    simp only [applyFrag, MySelectorsClass.element, MySelectorsClass.id,
      MySelectorsClass.cls, MySelectorsClass.attr, MySelectorsClass.pseudoClass,
      MySelectorsClass.pseudoElement] at h <;>
    split_ifs at h <;> simp_all [fragOrd] <;> omega

theorem digitChar_spec (d : Nat) (h : d < 10) :
    (digitChar d).isDigit = true ∧ digitVal (digitChar d) = d := by
  interval_cases d <;> exact ⟨by decide, by decide⟩

theorem isDigit_ne_special (c : Char) (h : c.isDigit = true) :
    c ≠ '"' ∧ c ≠ '[' ∧ c ≠ '\x7b' ∧ c ≠ '-' ∧ c ≠ ']' ∧ c ≠ '\x7d' ∧
    c ≠ ',' ∧ c ≠ ':' := by
  refine ⟨?_, ?_, ?_, ?_, ?_, ?_, ?_, ?_⟩ <;> (rintro rfl; revert h; decide)

theorem natDigsAux_spec (fuel : Nat) : ∀ n, n < 10 ^ fuel → 0 < fuel →
    natDigsAux fuel n ≠ [] ∧ (∀ c ∈ natDigsAux fuel n, c.isDigit = true) ∧
    List.foldl (fun a c => 10 * a + digitVal c) 0 (natDigsAux fuel n) = n := by
  induction fuel with
  | zero => intro n _ h0; omega
  | succ fuel ih =>
    intro n hn _
    by_cases h10 : n < 10
    · have hd := digitChar_spec n h10
      simp [natDigsAux, h10, hd.1, hd.2]
    · have hf : 0 < fuel := by
        rcases Nat.eq_zero_or_pos fuel with rfl | h
        · simp at hn; omega
        · exact h
      have hdiv : n / 10 < 10 ^ fuel := by
        rw [Nat.div_lt_iff_lt_mul (by omega)]
        calc n < 10 ^ (fuel + 1) := hn
        _ = 10 ^ fuel * 10 := by rw [Nat.pow_succ]
      obtain ⟨hne, hdig, hval⟩ := ih (n / 10) hdiv hf
      have hd := digitChar_spec (n % 10) (by omega)
      refine ⟨by simp [natDigsAux, h10], ?_, ?_⟩
      · intro c hc
        simp only [natDigsAux, if_neg h10, List.mem_append, List.mem_singleton] at hc
        rcases hc with hc | rfl
        · exact hdig c hc
        · exact hd.1
      · simp only [natDigsAux, if_neg h10, List.foldl_append, List.foldl_cons,
          List.foldl_nil, hval, hd.2]
        omega

theorem natDigs_spec (n : Nat) :
    natDigs n ≠ [] ∧ (∀ c ∈ natDigs n, c.isDigit = true) ∧
    List.foldl (fun a c => 10 * a + digitVal c) 0 (natDigs n) = n := by
  refine natDigsAux_spec (n + 1) n ?_ (by omega)
  calc n < n + 1 := by omega
  _ < 2 ^ (n + 1) := Nat.lt_two_pow (n + 1)
  _ ≤ 10 ^ (n + 1) := Nat.pow_le_pow_left (by omega) (n + 1)

/-- Absence of a leading digit, so that a greedy number scan stops. -/
def noLeadDigit : List Char → Prop
  | [] => True
  | c :: _ => c.isDigit = false

theorem parseNatAcc_digits (ds : List Char) (hds : ∀ c ∈ ds, c.isDigit = true) :
    ∀ acc rest, noLeadDigit rest →
    parseNatAcc acc (ds ++ rest) =
      (List.foldl (fun a c => 10 * a + digitVal c) acc ds, rest) := by
  induction ds with
  | nil =>
    intro acc rest hrest
    cases rest with
    | nil => rfl
    | cons c cs =>
      simp only [noLeadDigit] at hrest
      simp [parseNatAcc, hrest]
  | cons d ds ih =>
    intro acc rest hrest
    have hd : d.isDigit = true := hds d (by simp)
    simp only [List.cons_append, parseNatAcc, hd, if_pos, List.append_eq]
    rw [ih (fun c hc => hds c (by simp [hc])) _ rest hrest]
    simp

theorem data_mk (l : List Char) : (String.mk l).data = l := rfl

theorem parseInt_intToStr (n : Int) (rest : List Char) (h : noLeadDigit rest) :
    parseInt ((intToStr n).data ++ rest) = some (n, rest) := by
  by_cases hneg : n < 0
  · obtain ⟨hne, hdig, hval⟩ := natDigs_spec n.natAbs
    obtain ⟨d, ds, hds⟩ := List.exists_cons_of_ne_nil hne
    have hd : d.isDigit = true := hdig d (by simp [hds])
    have hacc := parseNatAcc_digits ds (fun c hc => hdig c (by simp [hds, hc]))
      (digitVal d) rest h
    have hfold : List.foldl (fun a c => 10 * a + digitVal c) (digitVal d) ds
        = n.natAbs := by
      rw [hds] at hval
      simpa using hval
    have hshape : (intToStr n).data ++ rest = '-' :: d :: (ds ++ rest) := by
      simp [intToStr, hneg, data_mk, hds]
    rw [hshape]
    simp only [parseInt, hd, hacc, reduceIte, if_true, hfold]
    have hn : -((n.natAbs : Int)) = n := by omega
    rw [hn]
  · obtain ⟨hne, hdig, hval⟩ := natDigs_spec n.toNat
    obtain ⟨d, ds, hds⟩ := List.exists_cons_of_ne_nil hne
    have hd : d.isDigit = true := hdig d (by simp [hds])
    have hdm : ¬(d = '-') := (isDigit_ne_special d hd).2.2.2.1
    have hacc := parseNatAcc_digits ds (fun c hc => hdig c (by simp [hds, hc]))
      (digitVal d) rest h
    have hfold : List.foldl (fun a c => 10 * a + digitVal c) (digitVal d) ds
        = n.toNat := by
      rw [hds] at hval
      simpa using hval
    have hshape : (intToStr n).data ++ rest = d :: (ds ++ rest) := by
      simp [intToStr, hneg, data_mk, hds]
    rw [hshape]
    simp only [parseInt, hd, hdm, hacc, reduceIte, if_true, if_false, hfold]
    have hn : ((n.toNat : Nat) : Int) = n := by omega
    rw [hn]

theorem strChars_append (l : List Char) (hl : ∀ c ∈ l, c ≠ '"') (rest : List Char) :
    strChars (l ++ '"' :: rest) = some (l, rest) := by
  induction l with
  | nil => simp [strChars]
  | cons c cs ih =>
    have hc : ¬(c = '"') := hl c (by simp)
    simp only [List.cons_append, strChars, hc, if_false, reduceIte, List.append_eq]
    rw [ih (fun x hx => hl x (by simp [hx]))]

theorem mk_data (s : String) : String.mk s.data = s := rfl

theorem intToStr_head (n : Int) :
    ∃ c t, (intToStr n).data = c :: t ∧ c ≠ '"' ∧ c ≠ '[' ∧ c ≠ '\x7b' := by
  by_cases hneg : n < 0
  · refine ⟨'-', natDigs n.natAbs, ?_, by decide, by decide, by decide⟩
    simp [intToStr, hneg, data_mk]
  · obtain ⟨hne, hdig, _⟩ := natDigs_spec n.toNat
    obtain ⟨d, ds, hds⟩ := List.exists_cons_of_ne_nil hne
    have hd := isDigit_ne_special d (hdig d (by simp [hds]))
    refine ⟨d, ds, ?_, hd.1, hd.2.1, hd.2.2.1⟩
    simp [intToStr, hneg, data_mk, hds]

theorem serVal_head (v : JVal) :
    ∃ c t, (serVal v).data = c :: t ∧ c ≠ ']' ∧ c ≠ '\x7d' := by
  cases v with
  | jnum n =>
    by_cases hneg : n < 0
    · refine ⟨'-', natDigs n.natAbs, ?_, by decide, by decide⟩
      simp [serVal, intToStr, hneg, data_mk]
    · obtain ⟨hne, hdig, _⟩ := natDigs_spec n.toNat
      obtain ⟨d, ds, hds⟩ := List.exists_cons_of_ne_nil hne
      have hd := isDigit_ne_special d (hdig d (by simp [hds]))
      refine ⟨d, ds, ?_, hd.2.2.2.2.1, hd.2.2.2.2.2.1⟩
      simp [serVal, intToStr, hneg, data_mk, hds]
  | jstr s => exact ⟨'"', s.data ++ ['"'], rfl, by decide, by decide⟩
  | jarr l => exact ⟨'[', (serArr l).data ++ [']'], rfl, by decide, by decide⟩
  | jobj l => exact ⟨'\x7b', (serObj l).data ++ ['\x7d'], rfl, by decide, by decide⟩

theorem serArr_head (l : List JVal) (h : l ≠ []) :
    ∃ c t, (serArr l).data = c :: t ∧ c ≠ ']' ∧ c ≠ '\x7d' := by
  cases l with
  | nil => exact absurd rfl h
  | cons v vs =>
    obtain ⟨c, t, hct, h1, h2⟩ := serVal_head v
    cases vs with
    | nil => exact ⟨c, t, by simp [serArr, hct], h1, h2⟩
    | cons w ws =>
      refine ⟨c, t ++ ',' :: (serArr (w :: ws)).data, ?_, h1, h2⟩
      simp [serArr, String.data_append, hct]

theorem serObj_head (l : List (String × JVal)) (h : l ≠ []) :
    ∃ t, (serObj l).data = '"' :: t := by
  cases l with
  | nil => exact absurd rfl h
  | cons m ms =>
    obtain ⟨k, v⟩ := m
    cases ms with
    | nil => exact ⟨_, rfl⟩
    | cons m2 ms2 => exact ⟨_, rfl⟩

mutual

theorem parse_serVal (v : JVal) : ∀ (fuel : Nat) (rest : List Char),
    needV v ≤ fuel → plainV v = true → noLeadDigit rest →
    parseVal fuel ((serVal v).data ++ rest) = some (v, rest) := by
  intro fuel rest hfuel hplain hrest
  cases v with
  | jnum n =>
    cases fuel with
    | zero => simp only [needV] at hfuel; omega
    | succ f =>
      obtain ⟨c, t, hct, h1, h2, h3⟩ := intToStr_head n
      have hps := parseInt_intToStr n rest hrest
      have hsv : (serVal (JVal.jnum n)).data = c :: t := hct
      rw [hct] at hps
      rw [hsv]
      simp only [List.cons_append] at hps ⊢
      simp only [parseVal, h1, h2, h3, if_false, reduceIte, hps]
  | jstr s =>
    cases fuel with
    | zero => simp only [needV] at hfuel; omega
    | succ f =>
      have hpl : ∀ c ∈ s.data, c ≠ '"' := by
        simp only [plainV, plainStrB, List.all_eq_true, Bool.and_eq_true,
          Bool.not_eq_true', decide_eq_false_iff_not] at hplain
        intro c hc
        exact (hplain c hc).1
      have hsc := strChars_append s.data hpl rest
      have hsv : (serVal (JVal.jstr s)).data = '"' :: (s.data ++ ['"']) := rfl
      rw [hsv]
      simp only [List.cons_append, List.append_assoc, List.singleton_append,
        List.nil_append]
      simp only [parseVal, reduceIte, hsc, mk_data]
  | jarr l =>
    cases l with
    | nil =>
      cases fuel with
      | zero => simp only [needV, needE] at hfuel; omega
      | succ f =>
        have hsv : (serVal (JVal.jarr [])).data = '[' :: ']' :: [] := rfl
        rw [hsv]
        simp [parseVal]
    | cons v vs =>
      cases fuel with
      | zero => simp only [needV, needE] at hfuel; omega
      | succ f =>
        have hne : needE (v :: vs) ≤ f := by simp only [needV] at hfuel; omega
        have hpe : plainE (v :: vs) = true := by simpa [plainV] using hplain
        obtain ⟨c, t, hct, hc1, hc2⟩ := serArr_head (v :: vs) (by simp)
        have harr := parse_serArr (v :: vs) (by simp) f rest hne hpe
        have hcs : (serArr (v :: vs)).data ++ ']' :: rest
            = c :: (t ++ ']' :: rest) := by simp [hct]
        have hsv : (serVal (JVal.jarr (v :: vs))).data
            = '[' :: ((serArr (v :: vs)).data ++ [']']) := rfl
        rw [hcs] at harr
        rw [hsv]
        simp only [List.cons_append, List.append_assoc, List.singleton_append,
          List.nil_append]
        rw [hcs]
        simp [parseVal, hc1, harr]
  | jobj l =>
    cases l with
    | nil =>
      cases fuel with
      | zero => simp only [needV, needM] at hfuel; omega
      | succ f =>
        have hsv : (serVal (JVal.jobj [])).data = '\x7b' :: '\x7d' :: [] := rfl
        rw [hsv]
        simp [parseVal]
    | cons m ms =>
      cases fuel with
      | zero => simp only [needV, needM] at hfuel; omega
      | succ f =>
        have hnm : needM (m :: ms) ≤ f := by simp only [needV] at hfuel; omega
        have hpm : plainM (m :: ms) = true := by simpa [plainV] using hplain
        obtain ⟨t, hct⟩ := serObj_head (m :: ms) (by simp)
        have hobj := parse_serObj (m :: ms) (by simp) f rest hnm hpm
        have hcs : (serObj (m :: ms)).data ++ '\x7d' :: rest
            = '"' :: (t ++ '\x7d' :: rest) := by simp [hct]
        have hsv : (serVal (JVal.jobj (m :: ms))).data
            = '\x7b' :: ((serObj (m :: ms)).data ++ ['\x7d']) := rfl
        rw [hcs] at hobj
        rw [hsv]
        simp only [List.cons_append, List.append_assoc, List.singleton_append,
          List.nil_append]
        rw [hcs]
        simp [parseVal, hobj]

theorem parse_serArr (l : List JVal) (hl : l ≠ []) : ∀ (fuel : Nat) (rest : List Char),
    needE l ≤ fuel → plainE l = true →
    parseElems fuel ((serArr l).data ++ ']' :: rest) = some (l, rest) := by
  intro fuel rest hfuel hplain
  cases l with
  | nil => exact absurd rfl hl
  | cons v vs =>
    cases fuel with
    | zero => simp only [needE] at hfuel; omega
    | succ f =>
      have hmax : needV v ≤ f ∧ needE vs ≤ f := by
        simp only [needE] at hfuel
        exact Nat.max_le.mp (by omega)
      have hnv := hmax.1
      have hpv : plainV v = true := by
        simp only [plainE, Bool.and_eq_true] at hplain
        exact hplain.1
      cases vs with
      | nil =>
        have hv := parse_serVal v f (']' :: rest) hnv hpv
          (by show (']' : Char).isDigit = false; decide)
        have hsa : (serArr [v]).data = (serVal v).data := by simp [serArr]
        rw [hsa]
        simp [parseElems, hv]
      | cons w ws =>
        have hpe : plainE (w :: ws) = true := by
          simp only [plainE, Bool.and_eq_true] at hplain ⊢
          exact hplain.2
        have hrec := parse_serArr (w :: ws) (by simp) f rest hmax.2 hpe
        have hv := parse_serVal v f (',' :: ((serArr (w :: ws)).data ++ ']' :: rest))
          hnv hpv (by show (',' : Char).isDigit = false; decide)
        have hcomma : ("," : String).data = [','] := rfl
        have hsa : (serArr (v :: w :: ws)).data ++ ']' :: rest
            = (serVal v).data ++ ',' :: ((serArr (w :: ws)).data ++ ']' :: rest) := by
          simp [serArr, String.data_append, hcomma, List.append_assoc]
        rw [hsa]
        simp [parseElems, hv, hrec]

theorem parse_serObj (l : List (String × JVal)) (hl : l ≠ []) :
    ∀ (fuel : Nat) (rest : List Char),
    needM l ≤ fuel → plainM l = true →
    parseMems fuel ((serObj l).data ++ '\x7d' :: rest) = some (l, rest) := by
  intro fuel rest hfuel hplain
  cases l with
  | nil => exact absurd rfl hl
  | cons m ms =>
    obtain ⟨k, v⟩ := m
    cases fuel with
    | zero => simp only [needM] at hfuel; omega
    | succ f =>
      have hmax : needV v ≤ f ∧ needM ms ≤ f := by
        simp only [needM] at hfuel
        exact Nat.max_le.mp (by omega)
      have hnv := hmax.1
      simp only [plainM, Bool.and_eq_true] at hplain
      have hpv : plainV v = true := hplain.1.2
      have hplk : ∀ c ∈ k.data, c ≠ '"' := by
        have hk := hplain.1.1
        simp only [plainStrB, List.all_eq_true, Bool.and_eq_true,
          Bool.not_eq_true', decide_eq_false_iff_not] at hk
        intro c hc
        exact (hk c hc).1
      have hq : ("\"" : String).data = ['"'] := rfl
      have hqc : ("\":" : String).data = ['"', ':'] := rfl
      cases ms with
      | nil =>
        have hsk := strChars_append k.data hplk
          (':' :: ((serVal v).data ++ '\x7d' :: rest))
        have hv := parse_serVal v f ('\x7d' :: rest) hnv hpv
          (by show ('\x7d' : Char).isDigit = false; decide)
        have hso : (serObj [(k, v)]).data ++ '\x7d' :: rest
            = '"' :: (k.data ++ '"' :: ':' :: ((serVal v).data ++ '\x7d' :: rest)) := by
          simp [serObj, String.data_append, hq, hqc, List.append_assoc]
        rw [hso]
        simp [parseMems, hsk, hv, mk_data]
      | cons m2 ms2 =>
        have hpm : plainM (m2 :: ms2) = true := hplain.2
        have hrec := parse_serObj (m2 :: ms2) (by simp) f rest hmax.2 hpm
        have hcomma : ("," : String).data = [','] := rfl
        have hsk := strChars_append k.data hplk
          (':' :: ((serVal v).data ++ ',' :: ((serObj (m2 :: ms2)).data ++ '\x7d' :: rest)))
        have hv := parse_serVal v f
          (',' :: ((serObj (m2 :: ms2)).data ++ '\x7d' :: rest)) hnv hpv
          (by show (',' : Char).isDigit = false; decide)
        have hso : (serObj ((k, v) :: m2 :: ms2)).data ++ '\x7d' :: rest
            = '"' :: (k.data ++ '"' :: ':' :: ((serVal v).data ++
                ',' :: ((serObj (m2 :: ms2)).data ++ '\x7d' :: rest))) := by
          simp [serObj, String.data_append, hq, hqc, hcomma, List.append_assoc]
        rw [hso]
        simp [parseMems, hsk, hv, hrec, mk_data]

end

mutual

theorem needV_le (v : JVal) : needV v ≤ (serVal v).data.length := by
  cases v with
  | jnum n =>
    obtain ⟨c, t, hct, -, -, -⟩ := intToStr_head n
    have hd : (serVal (JVal.jnum n)).data = c :: t := hct
    simp only [needV, hd, List.length_cons]
    omega
  | jstr s =>
    have hq : ("\"" : String).data = ['"'] := rfl
    simp only [needV, serVal, String.data_append, List.length_append, hq,
      List.length_cons, List.length_nil]
    omega
  | jarr l =>
    have h := needE_le l
    have hb : ("[" : String).data = ['['] := rfl
    have hb2 : ("]" : String).data = [']'] := rfl
    simp only [needV, serVal, String.data_append, List.length_append, hb, hb2,
      List.length_cons, List.length_nil]
    omega
  | jobj l =>
    have h := needM_le l
    have hb : ("\x7b" : String).data = ['\x7b'] := rfl
    have hb2 : ("\x7d" : String).data = ['\x7d'] := rfl
    simp only [needV, serVal, String.data_append, List.length_append, hb, hb2,
      List.length_cons, List.length_nil]
    omega

theorem needE_le (l : List JVal) : needE l ≤ (serArr l).data.length + 1 := by
  cases l with
  | nil => simp [needE]
  | cons v vs =>
    cases vs with
    | nil =>
      have h := needV_le v
      have hsa : serArr [v] = serVal v := by simp [serArr]
      simp only [needE, hsa]
      omega
    | cons w ws =>
      have h1 := needV_le v
      have h2 := needE_le (w :: ws)
      simp only [needE] at h2
      have hc : ("," : String).data = [','] := rfl
      have hsa : serArr (v :: w :: ws) = serVal v ++ "," ++ serArr (w :: ws) := by
        simp [serArr]
      simp only [needE, hsa, String.data_append, List.length_append, hc,
        List.length_cons, List.length_nil]
      omega

theorem needM_le (l : List (String × JVal)) :
    needM l ≤ (serObj l).data.length + 1 := by
  cases l with
  | nil => simp [needM]
  | cons m ms =>
    obtain ⟨k, v⟩ := m
    have hq : ("\"" : String).data = ['"'] := rfl
    have hqc : ("\":" : String).data = ['"', ':'] := rfl
    cases ms with
    | nil =>
      have h := needV_le v
      have hso : serObj [(k, v)] = "\"" ++ k ++ "\":" ++ serVal v := by
        simp [serObj]
      simp only [needM, hso, String.data_append, List.length_append, hq, hqc,
        List.length_cons, List.length_nil]
      omega
    | cons m2 ms2 =>
      have h1 := needV_le v
      have h2 := needM_le (m2 :: ms2)
      simp only [needM] at h2
      have hc : ("," : String).data = [','] := rfl
      have hso : serObj ((k, v) :: m2 :: ms2)
          = "\"" ++ k ++ "\":" ++ serVal v ++ "," ++ serObj (m2 :: ms2) := by
        simp [serObj]
      simp only [needM, hso, String.data_append, List.length_append, hq, hqc, hc,
        List.length_cons, List.length_nil]
      omega

end

theorem jsonParse_serVal (v : JVal) (h : plainV v = true) :
    jsonParse (serVal v) = some v := by
  have hfuel : needV v ≤ (serVal v).data.length + 1 :=
    le_trans (needV_le v) (by omega)
  have hp := parse_serVal v ((serVal v).data.length + 1) [] hfuel h trivial
  rw [List.append_nil] at hp
  unfold jsonParse
  rw [hp]

theorem applyTrace_append_ok (l2 l1 : List Frag) :
    ∀ s s1, applyTrace s l1 = (s1, none) →
    applyTrace s (l1 ++ l2) = applyTrace s1 l2 := by
  induction l1 with
  | nil =>
    intro s s1 h
    simp only [applyTrace, Prod.mk.injEq] at h
    rw [List.nil_append, h.1]
  | cons f fs ih =>
    intro s s1 h
    rcases hf : applyFrag s f with ⟨s2, e⟩
    simp only [applyTrace, hf] at h
    cases e with
    | some e => simp at h
    | none =>
      simp only [List.cons_append, applyTrace, hf]
      exact ih s2 s1 h

theorem applyTrace_ok_order (fs : List Frag) :
    ∀ s0 s, s0.order ≤ 6 → applyTrace s0 fs = (s, none) →
    s.order ≤ 6 ∧ ∀ t, (t < s.order ↔ (t < s0.order ∨ ∃ f ∈ fs, t < fragOrd f)) := by
  induction fs with
  | nil =>
    intro s0 s h6 h
    simp only [applyTrace, Prod.mk.injEq] at h
    rw [← h.1]
    exact ⟨h6, fun t => by simp⟩
  | cons f fs ih =>
    intro s0 s h6 h
    rcases hf : applyFrag s0 f with ⟨s1, e⟩
    simp only [applyTrace, hf] at h
    cases e with
    | some e => simp at h
    | none =>
      have hord : s1.order = fragOrd f := (applyFrag_ok_fields s0 s1 f hf).2.1
      have hle := applyFrag_ok_ord_le s0 s1 f h6 hf
      obtain ⟨ih6, iht⟩ := ih s1 s hle.2 h
      refine ⟨ih6, fun t => ?_⟩
      rw [iht t]
      simp only [List.mem_cons]
      constructor
      · rintro (hlt | ⟨g, hg, hlt⟩)
        · exact Or.inr ⟨f, Or.inl rfl, by omega⟩
        · exact Or.inr ⟨g, Or.inr hg, hlt⟩
      · rintro (hlt | ⟨g, (rfl | hg), hlt⟩)
        · left; omega
        · left; omega
        · exact Or.inr ⟨g, hg, hlt⟩

theorem applyTrace_ok_flags (fs : List Frag) :
    ∀ s0 s, applyTrace s0 fs = (s, none) →
    s.isElementCalled = (s0.isElementCalled || fs.any isElemF) ∧
    s.isIdCalled = (s0.isIdCalled || fs.any isIdF) ∧
    s.isPseudoElementCalled = (s0.isPseudoElementCalled || fs.any isPEF) := by
  induction fs with
  | nil =>
    intro s0 s h
    simp only [applyTrace, Prod.mk.injEq] at h
    rw [← h.1]
    simp
  | cons f fs ih =>
    intro s0 s h
    rcases hf : applyFrag s0 f with ⟨s1, e⟩
    simp only [applyTrace, hf] at h
    cases e with
    | some e => simp at h
    | none =>
      have hF := applyFrag_ok_fields s0 s1 f hf
      obtain ⟨ih1, ih2, ih3⟩ := ih s1 s h
      simp only [ih1, ih2, ih3, hF.2.2.1, hF.2.2.2.1, hF.2.2.2.2, List.any_cons,
        Bool.or_assoc]
      exact ⟨trivial, trivial, trivial⟩

theorem selReachable_order_le (s : MySelectorsClass) (h : SelReachable s) :
    s.order ≤ 6 := by
  obtain ⟨fs, hfs⟩ := h
  exact (applyTrace_ok_order fs MySelectorsClass.init s (by norm_num [MySelectorsClass.init]) hfs).1

theorem trace_cls_seg (cs : List String) : ∀ s : MySelectorsClass, s.order ≤ 3 →
    ∃ k, k ≤ 3 ∧ applyTrace s (cs.map Frag.cls)
      = (⟨s.selector ++ catStr (cs.map (fun v => "." ++ v)), s.isElementCalled,
          s.isIdCalled, s.isPseudoElementCalled, k⟩, none) := by
  induction cs with
  | nil =>
    intro s h
    refine ⟨s.order, h, ?_⟩
    simp only [List.map_nil, applyTrace, catStr, String.append_empty]
  | cons c cs ih =>
    intro s h
    obtain ⟨k, hk, hrec⟩ := ih ⟨s.selector ++ "." ++ c, s.isElementCalled,
      s.isIdCalled, s.isPseudoElementCalled, 3⟩ (by norm_num)
    refine ⟨k, hk, ?_⟩
    have h1 : applyFrag s (Frag.cls c) = (⟨s.selector ++ "." ++ c,
        s.isElementCalled, s.isIdCalled, s.isPseudoElementCalled, 3⟩, none) := by
      simp only [applyFrag, MySelectorsClass.cls]
      rw [if_neg (by omega)]
    simp only [List.map_cons, applyTrace, h1]
    rw [hrec]
    simp [catStr, String.append_assoc]

theorem trace_attr_seg (vs : List String) : ∀ s : MySelectorsClass, s.order ≤ 4 →
    ∃ k, k ≤ 4 ∧ applyTrace s (vs.map Frag.attr)
      = (⟨s.selector ++ catStr (vs.map (fun v => "[" ++ v ++ "]")),
          s.isElementCalled, s.isIdCalled, s.isPseudoElementCalled, k⟩, none) := by
  induction vs with
  | nil =>
    intro s h
    refine ⟨s.order, h, ?_⟩
    simp only [List.map_nil, applyTrace, catStr, String.append_empty]
  | cons c cs ih =>
    intro s h
    obtain ⟨k, hk, hrec⟩ := ih ⟨s.selector ++ "[" ++ c ++ "]", s.isElementCalled,
      s.isIdCalled, s.isPseudoElementCalled, 4⟩ (by norm_num)
    refine ⟨k, hk, ?_⟩
    have h1 : applyFrag s (Frag.attr c) = (⟨s.selector ++ "[" ++ c ++ "]",
        s.isElementCalled, s.isIdCalled, s.isPseudoElementCalled, 4⟩, none) := by
      simp only [applyFrag, MySelectorsClass.attr]
      rw [if_neg (by omega)]
    simp only [List.map_cons, applyTrace, h1]
    rw [hrec]
    simp [catStr, String.append_assoc]

theorem trace_pc_seg (vs : List String) : ∀ s : MySelectorsClass, s.order ≤ 5 →
    ∃ k, k ≤ 5 ∧ applyTrace s (vs.map Frag.pseudoClass)
      = (⟨s.selector ++ catStr (vs.map (fun v => ":" ++ v)), s.isElementCalled,
          s.isIdCalled, s.isPseudoElementCalled, k⟩, none) := by
  induction vs with
  | nil =>
    intro s h
    refine ⟨s.order, h, ?_⟩
    simp only [List.map_nil, applyTrace, catStr, String.append_empty]
  | cons c cs ih =>
    intro s h
    obtain ⟨k, hk, hrec⟩ := ih ⟨s.selector ++ ":" ++ c, s.isElementCalled,
      s.isIdCalled, s.isPseudoElementCalled, 5⟩ (by norm_num)
    refine ⟨k, hk, ?_⟩
    have h1 : applyFrag s (Frag.pseudoClass c) = (⟨s.selector ++ ":" ++ c,
        s.isElementCalled, s.isIdCalled, s.isPseudoElementCalled, 5⟩, none) := by
      simp only [applyFrag, MySelectorsClass.pseudoClass]
      rw [if_neg (by omega)]
    simp only [List.map_cons, applyTrace, h1]
    rw [hrec]
    simp [catStr, String.append_assoc]

theorem trace_head_seg (oe oi : Option String) :
    ∃ b1 b2 k, k ≤ 2 ∧
    applyTrace MySelectorsClass.init (optTrace Frag.element oe ++ optTrace Frag.id oi)
      = (⟨optStr "" oe ++ optStr "#" oi, b1, b2, false, k⟩, none) := by
  cases oe with
  | none =>
    cases oi with
    | none => exact ⟨false, false, 0, by omega, rfl⟩
    | some i =>
      refine ⟨false, true, 2, by omega, ?_⟩
      simp [optTrace, optStr, applyTrace, applyFrag, MySelectorsClass.id,
        MySelectorsClass.init, String.empty_append, String.append_assoc]
  | some e =>
    cases oi with
    | none =>
      refine ⟨true, false, 1, by omega, ?_⟩
      simp [optTrace, optStr, applyTrace, applyFrag, MySelectorsClass.element,
        MySelectorsClass.init, String.empty_append, String.append_empty]
    | some i =>
      refine ⟨true, true, 2, by omega, ?_⟩
      simp [optTrace, optStr, applyTrace, applyFrag, MySelectorsClass.element,
        MySelectorsClass.id, MySelectorsClass.init, String.empty_append,
        String.append_assoc]

theorem trace_tail_seg (cs as1 ps : List String) (ope : Option String) :
    ∀ s : MySelectorsClass, s.order ≤ 3 → s.isPseudoElementCalled = false →
    (applyTrace s (cs.map Frag.cls ++ (as1.map Frag.attr ++
      (ps.map Frag.pseudoClass ++ optTrace Frag.pseudoElement ope)))).2 = none ∧
    (applyTrace s (cs.map Frag.cls ++ (as1.map Frag.attr ++
      (ps.map Frag.pseudoClass ++ optTrace Frag.pseudoElement ope)))).1.selector
      = s.selector ++ (catStr (cs.map (fun v => "." ++ v)) ++
          (catStr (as1.map (fun v => "[" ++ v ++ "]")) ++
            (catStr (ps.map (fun v => ":" ++ v)) ++ optStr "::" ope))) := by
  intro s h3 hpe
  obtain ⟨k1, hk1, h1⟩ := trace_cls_seg cs s h3
  rw [applyTrace_append_ok _ _ _ _ h1]
  obtain ⟨k2, hk2, h2⟩ := trace_attr_seg as1 ⟨s.selector ++
    catStr (cs.map (fun v => "." ++ v)), s.isElementCalled, s.isIdCalled,
    s.isPseudoElementCalled, k1⟩ (by simp only []; omega)
  rw [applyTrace_append_ok _ _ _ _ h2]
  obtain ⟨k3, hk3, h3p⟩ := trace_pc_seg ps ⟨(s.selector ++
    catStr (cs.map (fun v => "." ++ v))) ++
    catStr (as1.map (fun v => "[" ++ v ++ "]")), s.isElementCalled, s.isIdCalled,
    s.isPseudoElementCalled, k2⟩ (by simp only []; omega)
  rw [applyTrace_append_ok _ _ _ _ h3p]
  cases ope with
  | none =>
    simp only [optTrace, applyTrace, optStr, String.append_empty]
    exact ⟨trivial, by simp [String.append_assoc]⟩
  | some v =>
    have h4 : applyFrag ⟨((s.selector ++ catStr (cs.map (fun v => "." ++ v))) ++
        catStr (as1.map (fun v => "[" ++ v ++ "]"))) ++
        catStr (ps.map (fun v => ":" ++ v)), s.isElementCalled, s.isIdCalled,
        s.isPseudoElementCalled, k3⟩ (Frag.pseudoElement v)
        = (⟨(((s.selector ++ catStr (cs.map (fun v => "." ++ v))) ++
            catStr (as1.map (fun v => "[" ++ v ++ "]"))) ++
            catStr (ps.map (fun v => ":" ++ v))) ++ "::" ++ v, s.isElementCalled,
            s.isIdCalled, true, 6⟩, none) := by
      simp only [applyFrag, MySelectorsClass.pseudoElement]
      rw [if_neg (by simp [hpe])]
    simp only [optTrace, applyTrace, h4]
    exact ⟨trivial, by simp [optStr, String.append_assoc]⟩

/-- C1: for every chain of category calls in a valid order (at most one
element, then at most one id, then any number of class, attr, pseudoClass,
then at most one pseudoElement) starting from the `cssSelectorBuilder`
facade, no error is thrown and `stringify()` returns exactly the literal
concatenation of the fragments with their prefixes (element verbatim,
`#id`, `.class`, `[attr]`, `:pseudoClass`, `::pseudoElement`); in
particular `id('main').class('container').class('editable')` stringifies to
`#main.container.editable` and
`element('a').attr('href$=".png"').pseudoClass('focus')` to
`a[href$=".png"]:focus`. -/
theorem stringify_of_valid_chain :
    (∀ p : ValidParts,
      (applyTrace MySelectorsClass.init p.trace).2 = none ∧
      (applyTrace MySelectorsClass.init p.trace).1.stringify = p.expected) ∧
    ((applyTrace MySelectorsClass.init [Frag.id "main", Frag.cls "container",
        Frag.cls "editable"]).1.stringify = "#main.container.editable" ∧
      (applyTrace MySelectorsClass.init [Frag.id "main", Frag.cls "container",
        Frag.cls "editable"]).2 = none) ∧
    ((applyTrace MySelectorsClass.init [Frag.element "a",
        Frag.attr "href$=\".png\"", Frag.pseudoClass "focus"]).1.stringify
        = "a[href$=\".png\"]:focus" ∧
      (applyTrace MySelectorsClass.init [Frag.element "a",
        Frag.attr "href$=\".png\"", Frag.pseudoClass "focus"]).2 = none) := by
  refine ⟨?_, ⟨rfl, rfl⟩, ⟨rfl, rfl⟩⟩
  intro p
  rcases p with ⟨oe, oi, cs, as1, ps, ope⟩
  obtain ⟨b1, b2, k, hk, hhead⟩ := trace_head_seg oe oi
  have hsplit : (ValidParts.mk oe oi cs as1 ps ope).trace
      = (optTrace Frag.element oe ++ optTrace Frag.id oi) ++
        (cs.map Frag.cls ++ (as1.map Frag.attr ++
          (ps.map Frag.pseudoClass ++ optTrace Frag.pseudoElement ope))) := by
    simp [ValidParts.trace, List.append_assoc]
  obtain ⟨ht2, hts⟩ := trace_tail_seg cs as1 ps ope
    ⟨optStr "" oe ++ optStr "#" oi, b1, b2, false, k⟩ (by simp only []; omega) rfl
  rw [hsplit, applyTrace_append_ok _ _ _ _ hhead]
  refine ⟨ht2, ?_⟩
  simp only [MySelectorsClass.stringify]
  rw [hts]
  simp [ValidParts.expected, String.append_assoc]

/-- C2: on every reachable builder state, a category call whose ordinal is
strictly below the recorded `order` always throws, a call whose ordinal is
at least `order` never throws the ordering error, and every successful
append had ordinal at least the recorded `order` (the monotone-ordinal
invariant). -/
theorem append_order_invariant (s : MySelectorsClass) (f : Frag)
    (h : SelReachable s) :
    (fragOrd f < s.order → (applyFrag s f).2.isSome = true) ∧
    (s.order ≤ fragOrd f → (applyFrag s f).2 ≠ some SelErr.badOrder) ∧
    (∀ t, applyFrag s f = (t, none) → s.order ≤ fragOrd f) := by
  have h6 := selReachable_order_le s h
  refine ⟨fun hlt => applyFrag_low_err s f h6 hlt, ?_,
    fun t ht => (applyFrag_ok_ord_le s t f h6 ht).1⟩
  intro hle hbad
  have hpair : applyFrag s f = ((applyFrag s f).1, some SelErr.badOrder) := by
    rw [← hbad]
  have := applyFrag_badOrder s (applyFrag s f).1 f hpair
  omega

/-- Witness for C2 at the reachable state after `attr('t')` (order 4) and
the call `class('a')` (ordinal 3). -/
theorem append_order_invariant_witness :
    (fragOrd (Frag.cls "a") < (MySelectorsClass.mk "[t]" false false false 4).order →
      (applyFrag (MySelectorsClass.mk "[t]" false false false 4)
        (Frag.cls "a")).2.isSome = true) ∧
    ((MySelectorsClass.mk "[t]" false false false 4).order ≤ fragOrd (Frag.cls "a") →
      (applyFrag (MySelectorsClass.mk "[t]" false false false 4)
        (Frag.cls "a")).2 ≠ some SelErr.badOrder) ∧
    (∀ t, applyFrag (MySelectorsClass.mk "[t]" false false false 4)
        (Frag.cls "a") = (t, none) →
      (MySelectorsClass.mk "[t]" false false false 4).order ≤ fragOrd (Frag.cls "a")) :=
  append_order_invariant (MySelectorsClass.mk "[t]" false false false 4)
    (Frag.cls "a") ⟨[Frag.attr "t"], rfl⟩

/-- C3: `combine(a, c, b)` stringifies to
`stringify(a) + " " + c + " " + stringify(b)` for all operands and any
combinator token taken verbatim; the embedding of `combine` is total (no
throwing path exists in its body), and in particular
`combine(element('div'), '+', element('span'))` gives `div + span`. -/
theorem combine_stringify :
    (∀ (a : MySelectorsClass) (c : String) (b : MySelectorsClass),
      (cssSelectorBuilder.combine a c b).stringify
        = a.stringify ++ " " ++ c ++ " " ++ b.stringify) ∧
    (cssSelectorBuilder.element "div").2 = none ∧
    (cssSelectorBuilder.element "span").2 = none ∧
    (cssSelectorBuilder.combine (cssSelectorBuilder.element "div").1 "+"
      (cssSelectorBuilder.element "span").1).stringify = "div + span" :=
  ⟨fun a c b => rfl, rfl, rfl, rfl⟩

/-- C4: on every reachable state, `element(val)` succeeds exactly when
element was not already set and no category of ordinal 2 or more (id,
class, attribute, pseudo-class, pseudo-element) was already appended, and
on success it appends `val` verbatim. -/
theorem element_fail_iff (fs : List Frag) (s : MySelectorsClass) (val : String)
    (h : applyTrace MySelectorsClass.init fs = (s, none)) :
    ((s.element val).2 = none ↔
      (¬ (∃ v, Frag.element v ∈ fs) ∧ ¬ (∃ f ∈ fs, 2 ≤ fragOrd f))) ∧
    (∀ t, s.element val = (t, none) → t.selector = s.selector ++ val) := by
  constructor
  · rw [element_ok_iff]
    obtain ⟨hel, -, -⟩ := applyTrace_ok_flags fs MySelectorsClass.init s h
    have hel' : s.isElementCalled = fs.any isElemF := by
      simpa [MySelectorsClass.init] using hel
    have hord := (applyTrace_ok_order fs MySelectorsClass.init s
      (by norm_num [MySelectorsClass.init]) h).2 1
    have hord' : 1 < s.order ↔ ∃ f ∈ fs, 1 < fragOrd f := by
      simpa [MySelectorsClass.init] using hord
    constructor
    · rintro ⟨hf, ho⟩
      constructor
      · rintro ⟨v, hv⟩
        have hany : fs.any isElemF = true :=
          List.any_eq_true.mpr ⟨Frag.element v, hv, rfl⟩
        rw [hel', hany] at hf
        exact absurd hf (by simp)
      · rintro ⟨f, hfin, h2f⟩
        have : 1 < s.order := hord'.mpr ⟨f, hfin, by omega⟩
        omega
    · rintro ⟨h1, h2⟩
      constructor
      · cases hany : fs.any isElemF with
        | false => rw [hel', hany]
        | true =>
          exfalso
          obtain ⟨f, hfin, hft⟩ := List.any_eq_true.mp hany
          cases f <;> simp [isElemF] at hft
          case element v => exact h1 ⟨v, hfin⟩
      · by_contra hgt
        have : 1 < s.order := by omega
        obtain ⟨f, hfin, h1f⟩ := hord'.mp this
        exact h2 ⟨f, hfin, by omega⟩
  · intro t ht
    simpa [fragStr] using (applyFrag_ok_fields s t (Frag.element val) ht).1

/-- Witness for C4 at the state after `id('m')` (order 2): `element('a')`
fails there. -/
theorem element_fail_iff_witness :
    (((MySelectorsClass.mk "#m" false true false 2).element "a").2 = none ↔
      (¬ (∃ v, Frag.element v ∈ [Frag.id "m"]) ∧
        ¬ (∃ f ∈ [Frag.id "m"], 2 ≤ fragOrd f))) ∧
    (∀ t, (MySelectorsClass.mk "#m" false true false 2).element "a" = (t, none) →
      t.selector = (MySelectorsClass.mk "#m" false true false 2).selector ++ "a") :=
  element_fail_iff [Frag.id "m"] (MySelectorsClass.mk "#m" false true false 2)
    "a" rfl

/-- C5: element, id and pseudoElement each succeed at most once on a chain
(a second invocation throws the duplicate error regardless of what was
appended in between), while class, attr and pseudoClass can always be
repeated immediately; concretely, `element()` twice fails, `id()` after
`class()` fails (ordering error), `class()` after `attr()` fails with the
ordering error, and `class()` right after `class()` succeeds. -/
theorem singleton_categories_once :
    (∀ (fs : List Frag) (s : MySelectorsClass) (v w : String),
      applyTrace MySelectorsClass.init fs = (s, none) → Frag.element w ∈ fs →
      (s.element v).2 = some SelErr.duplicate) ∧
    (∀ (fs : List Frag) (s : MySelectorsClass) (v w : String),
      applyTrace MySelectorsClass.init fs = (s, none) → Frag.id w ∈ fs →
      (s.id v).2 = some SelErr.duplicate) ∧
    (∀ (fs : List Frag) (s : MySelectorsClass) (v w : String),
      applyTrace MySelectorsClass.init fs = (s, none) →
      Frag.pseudoElement w ∈ fs →
      (s.pseudoElement v).2 = some SelErr.duplicate) ∧
    (∀ (s t : MySelectorsClass) (v w : String), s.cls v = (t, none) →
      (t.cls w).2 = none) ∧
    (∀ (s t : MySelectorsClass) (v w : String), s.attr v = (t, none) →
      (t.attr w).2 = none) ∧
    (∀ (s t : MySelectorsClass) (v w : String), s.pseudoClass v = (t, none) →
      (t.pseudoClass w).2 = none) ∧
    (applyTrace MySelectorsClass.init [Frag.element "a", Frag.element "b"]).2
      = some SelErr.duplicate ∧
    (applyTrace MySelectorsClass.init [Frag.cls "c", Frag.id "i"]).2
      = some SelErr.badOrder ∧
    (applyTrace MySelectorsClass.init [Frag.attr "x", Frag.cls "c"]).2
      = some SelErr.badOrder ∧
    (applyTrace MySelectorsClass.init [Frag.cls "a", Frag.cls "b"]).2 = none := by
  refine ⟨?_, ?_, ?_, ?_, ?_, ?_, rfl, rfl, rfl, rfl⟩
  · intro fs s v w h hmem
    obtain ⟨hel, -, -⟩ := applyTrace_ok_flags fs MySelectorsClass.init s h
    have hany : fs.any isElemF = true :=
      List.any_eq_true.mpr ⟨Frag.element w, hmem, rfl⟩
    have hflag : s.isElementCalled = true := by
      simpa [MySelectorsClass.init, hany] using hel
    simp [MySelectorsClass.element, hflag]
  · intro fs s v w h hmem
    obtain ⟨-, hid, -⟩ := applyTrace_ok_flags fs MySelectorsClass.init s h
    have hany : fs.any isIdF = true :=
      List.any_eq_true.mpr ⟨Frag.id w, hmem, rfl⟩
    have hflag : s.isIdCalled = true := by
      simpa [MySelectorsClass.init, hany] using hid
    simp [MySelectorsClass.id, hflag]
  · intro fs s v w h hmem
    obtain ⟨-, -, hpe⟩ := applyTrace_ok_flags fs MySelectorsClass.init s h
    have hany : fs.any isPEF = true :=
      List.any_eq_true.mpr ⟨Frag.pseudoElement w, hmem, rfl⟩
    have hflag : s.isPseudoElementCalled = true := by
      simpa [MySelectorsClass.init, hany] using hpe
    simp [MySelectorsClass.pseudoElement, hflag]
  · intro s t v w h
    have hord : t.order = 3 := by
      simpa [fragOrd] using (applyFrag_ok_fields s t (Frag.cls v) h).2.1
    rw [cls_ok_iff]
    omega
  · intro s t v w h
    have hord : t.order = 4 := by
      simpa [fragOrd] using (applyFrag_ok_fields s t (Frag.attr v) h).2.1
    rw [attr_ok_iff]
    omega
  · intro s t v w h
    have hord : t.order = 5 := by
      simpa [fragOrd] using (applyFrag_ok_fields s t (Frag.pseudoClass v) h).2.1
    rw [pseudoClass_ok_iff]
    omega

/-- Witness for C5: after `element('a')` a second `element('b')` throws the
duplicate error. -/
theorem singleton_categories_once_witness :
    ((MySelectorsClass.mk "a" true false false 1).element "b").2
      = some SelErr.duplicate :=
  singleton_categories_once.1 [Frag.element "a"]
    (MySelectorsClass.mk "a" true false false 1) "b" "a" rfl
    (List.mem_singleton.mpr rfl)

/-- C6: a failing category call is atomic: when it throws, the builder's
whole state (accumulated text, the order ordinal and the three
singleton-use flags) is exactly what it was before the call. -/
theorem failing_call_atomic (s : MySelectorsClass) (f : Frag)
    (h : (applyFrag s f).2.isSome = true) :
    (applyFrag s f).1.selector = s.selector ∧
    (applyFrag s f).1.order = s.order ∧
    (applyFrag s f).1.isElementCalled = s.isElementCalled ∧
    (applyFrag s f).1.isIdCalled = s.isIdCalled ∧
    (applyFrag s f).1.isPseudoElementCalled = s.isPseudoElementCalled := by
  rw [applyFrag_err_state s f h]
  exact ⟨rfl, rfl, rfl, rfl, rfl⟩

/-- Witness for C6: the duplicate-element failure leaves the state
untouched. -/
theorem failing_call_atomic_witness :
    (applyFrag (MySelectorsClass.mk "a" true false false 1)
      (Frag.element "b")).1.selector
      = (MySelectorsClass.mk "a" true false false 1).selector ∧
    (applyFrag (MySelectorsClass.mk "a" true false false 1)
      (Frag.element "b")).1.order
      = (MySelectorsClass.mk "a" true false false 1).order ∧
    (applyFrag (MySelectorsClass.mk "a" true false false 1)
      (Frag.element "b")).1.isElementCalled
      = (MySelectorsClass.mk "a" true false false 1).isElementCalled ∧
    (applyFrag (MySelectorsClass.mk "a" true false false 1)
      (Frag.element "b")).1.isIdCalled
      = (MySelectorsClass.mk "a" true false false 1).isIdCalled ∧
    (applyFrag (MySelectorsClass.mk "a" true false false 1)
      (Frag.element "b")).1.isPseudoElementCalled
      = (MySelectorsClass.mk "a" true false false 1).isPseudoElementCalled :=
  failing_call_atomic (MySelectorsClass.mk "a" true false false 1)
    (Frag.element "b") rfl

/-- C7: `combine` returns both operand selectors exactly as they were (it
only reads them through `stringify`), and `stringify` is a pure read: it
returns the receiver unchanged and a repeated call yields the same
string. -/
theorem combine_readonly_operands :
    (∀ (s a : MySelectorsClass) (c : String) (b : MySelectorsClass),
      (s.combineSt a c b).2.1 = a ∧ (s.combineSt a c b).2.2 = b ∧
      (s.combineSt a c b).1 = s.combine a c b) ∧
    (∀ s : MySelectorsClass, s.stringifySt.2 = s ∧
      s.stringifySt.1 = s.stringify ∧
      s.stringifySt.2.stringifySt.1 = s.stringifySt.1) :=
  ⟨fun s a c b => ⟨rfl, rfl, rfl⟩, fun s => ⟨rfl, rfl, rfl⟩⟩

/-- C8: serializing a plain object with `getJSON` and reading it back with
`fromJSON(proto, ·)` yields the prototype `proto` paired with exactly the
original own fields; and `getJSON([1,2,3])` is the string `[1,2,3]`. -/
theorem getJSON_fromJSON_roundtrip :
    (∀ (P : Type) (proto : P) (fields : List (String × JVal)),
      plainM fields = true →
      fromJSON proto (getJSON (JVal.jobj fields))
        = some (proto, JVal.jobj fields)) ∧
    getJSON (JVal.jarr [JVal.jnum 1, JVal.jnum 2, JVal.jnum 3]) = "[1,2,3]" := by
  refine ⟨?_, rfl⟩
  intro P proto fields h
  have hv : plainV (JVal.jobj fields) = true := h
  unfold fromJSON getJSON
  rw [jsonParse_serVal (JVal.jobj fields) hv]
  rfl

/-- Witness for C8 at the object `{width:10, height:20}` with the trivial
prototype. -/
theorem getJSON_fromJSON_roundtrip_witness :
    plainM [("width", JVal.jnum 10), ("height", JVal.jnum 20)] = true ∧
    fromJSON () (getJSON (JVal.jobj
        [("width", JVal.jnum 10), ("height", JVal.jnum 20)]))
      = some ((), JVal.jobj
        [("width", JVal.jnum 10), ("height", JVal.jnum 20)]) :=
  ⟨rfl, getJSON_fromJSON_roundtrip.1 Unit () _ rfl⟩

/-- C9: `new Rectangle(w, h)` exposes `width = w`, `height = h` and
`getArea() = w * h`; in particular `new Rectangle(10,20).getArea() = 200`. -/
theorem rectangle_spec :
    (∀ w h : Int, (Rectangle.new w h).width = w ∧ (Rectangle.new w h).height = h ∧
      (Rectangle.new w h).getArea = w * h) ∧
    (Rectangle.new 10 20).getArea = 200 :=
  ⟨fun w h => ⟨rfl, rfl, rfl⟩, rfl⟩

/-- C10: `combine` replaces the accumulated text entirely — whatever was
appended before, the result stringifies to
`stringify(a) + " " + c + " " + stringify(b)` — and it leaves the order
ordinal and the three singleton flags unchanged; concretely a builder that
already appended `div` stringifies to `table + span` after
`combine(element('table'), '+', element('span'))`, with no trace of `div`
at the front. -/
theorem combine_overwrites_selector :
    (∀ (s a : MySelectorsClass) (c : String) (b : MySelectorsClass),
      (s.combine a c b).stringify
        = a.stringify ++ " " ++ c ++ " " ++ b.stringify ∧
      (s.combine a c b).order = s.order ∧
      (s.combine a c b).isElementCalled = s.isElementCalled ∧
      (s.combine a c b).isIdCalled = s.isIdCalled ∧
      (s.combine a c b).isPseudoElementCalled = s.isPseudoElementCalled) ∧
    ((cssSelectorBuilder.element "div").1.combine
      (cssSelectorBuilder.element "table").1 "+"
      (cssSelectorBuilder.element "span").1).stringify = "table + span" ∧
    (List.isPrefixOf "div".data ((cssSelectorBuilder.element "div").1.combine
      (cssSelectorBuilder.element "table").1 "+"
      (cssSelectorBuilder.element "span").1).stringify.data) = false := by
  exact ⟨fun s a c b => ⟨rfl, rfl, rfl, rfl, rfl⟩, rfl, by decide⟩
